import Mathlib

/-!
Shallow embedding of `src/uff_engine.cpp` from tensorlayer/openpose-plus:
a batched TensorRT/UFF inference runner.

Modelling conventions:
- Machine bytes are modelled as `Nat` values; a device buffer
  (`ttl::cuda_tensor<char, 2>`, shape `[batch_size, data_size]`) is a list of
  rows, each row a list of bytes, plus a stable device-pointer identity.
- The external TensorRT backend (parser, builder, execution) is opaque to this
  file's code; it is represented by parameters: a parse success flag, an
  optional built engine (its binding list), and an execution function `exec`
  mapping a batch size and the full ordered buffer contents to new buffer
  contents (the backend writes through the device pointers it is handed, so
  it can change contents but not reallocate).
- `assert` failure and `exit(1)` terminate the process; they are modelled by
  `Option.none` / explicit `exited` and `aborted` result constructors.
- Host pointers are modelled as lists of rows; reading past the supplied data
  (undefined behaviour in the C++) is modelled as reading an empty host.
-/

namespace UffEngine

/-- The `nvinfer1::DataType` values relevant to the source: the three handled
by `elementSize` plus `kINT32`, which appears (commented out) in the source's
switch and stands for any unhandled element type. -/
inductive DataType where
  | kFLOAT
  | kHALF
  | kINT8
  | kINT32
  deriving DecidableEq, Repr

/-- The integer value of a `nvinfer1::DataType`, as used by
`std::to_string(int(dtype))`. -/
def dtypeInt : DataType → Nat
  | DataType.kFLOAT => 0
  | DataType.kHALF => 1
  | DataType.kINT8 => 2
  | DataType.kINT32 => 3

/-- `nvinfer1::Dims`: an ordered list of dimension sizes. -/
structure Dims where
  d : List Nat
  deriving DecidableEq, Repr

/-- `volume(const nvinfer1::Dims &)`: `v = 1; for i: v *= d.d[i]`. -/
def volume (dims : Dims) : Nat :=
  dims.d.foldl (fun v x => v * x) 1

/-- `elementSize(nvinfer1::DataType)`: 4 for `kFLOAT`, 2 for `kHALF`, 1 for
`kINT8`; any other value reaches `assert(0)`, modelled as `none`. -/
def elementSize : DataType → Option Nat
  | DataType.kFLOAT => some 4
  | DataType.kHALF => some 2
  | DataType.kINT8 => some 1
  | DataType.kINT32 => none

/-- `std::to_string(int(dtype))` from the source's `to_string` overload. -/
def dtypeString (t : DataType) : String :=
  toString (dtypeInt t)

/-- One binding slot of a compiled engine, as introspected by the source via
`getBindingDimensions`, `getBindingDataType`, `getBindingName`,
`bindingIsInput`. -/
structure Binding where
  name : String
  dims : Dims
  dtype : DataType
  is_input : Bool
  deriving DecidableEq, Repr

/-- Placeholder binding used as the default of positional lookups. -/
def dummyBinding : Binding :=
  { name := "", dims := { d := [] }, dtype := DataType.kFLOAT, is_input := false }

/-- `cuda_buffer_t = ttl::cuda_tensor<char, 2>`: a device buffer with a stable
device-pointer identity and `rows` of bytes (shape `[batch_size, data_size]`). -/
structure cuda_buffer_t where
  devPtr : Nat
  rows : List (List Nat)
  deriving DecidableEq, Repr

/-- Placeholder buffer used as the default of positional lookups. -/
def dummyBuffer : cuda_buffer_t :=
  { devPtr := 0, rows := [] }

/-- Total byte capacity of a device buffer. -/
def bufferBytes (b : cuda_buffer_t) : Nat :=
  (b.rows.map List.length).sum

/-- The body of `loadModelAndCreateEngine`: if the parse fails, log the
diagnostic naming the data type and return no engine; otherwise return
whatever `buildCudaEngine` produced. Result: optional engine (its binding
list) and the `gLogger` messages emitted. -/
def loadModelAndCreateEngine (parseOk : Bool) (builtEngine : Option (List Binding))
    (dtype : DataType) : Option (List Binding) × List String :=
  if parseOk then (builtEngine, [])
  else (none, ["Failed to created engine of data type: " ++ dtypeString dtype])

/-- Outcome of `create_engine`: either an engine together with the log
messages emitted so far, or process termination via `exit(code)`. -/
inductive EngineResult where
  | ok (bindings : List Binding) (logs : List String)
  | exited (code : Nat) (logs : List String)
  deriving DecidableEq, Repr

/-- The body of `create_engine`: registration with the parser is part of the
opaque backend (summarised by `parseOk`/`builtEngine`); if
`loadModelAndCreateEngine` yields no engine, log `"Failed to created engine"`
and `exit(1)`. -/
def create_engine (parseOk : Bool) (builtEngine : Option (List Binding))
    (dtype : DataType) : EngineResult :=
  match loadModelAndCreateEngine parseOk builtEngine dtype with
  | (some e, logs) => EngineResult.ok e logs
  | (none, logs) => EngineResult.exited 1 (logs ++ ["Failed to created engine"])

/-- One step of `createBuffers_`'s loop at binding index `i`:
`buffers_.emplace_back(batch_size, volume(dims) * elementSize(dtype))`,
where `elementSize` on an unsupported type hits `assert(0)` (modelled `none`).
Fresh device memory content is unspecified; it is modelled as zero bytes. -/
def createBuffersGo (batch_size : Nat) : Nat → List Binding → Option (List cuda_buffer_t)
  | _, [] => some []
  | i, b :: bs =>
    match elementSize b.dtype with
    | none => none
    | some es =>
      match createBuffersGo batch_size (i + 1) bs with
      | none => none
      | some rest =>
        some ({ devPtr := i,
                rows := List.replicate batch_size
                  (List.replicate (volume b.dims * es) 0) } :: rest)

/-- `uff_runner_impl::createBuffers_(batch_size)`: one buffer per binding, in
binding order. -/
def createBuffers_ (batch_size : Nat) (bindings : List Binding) :
    Option (List cuda_buffer_t) :=
  createBuffersGo batch_size 0 bindings

/-- The state of a constructed `uff_runner_impl`: the fixed maximum batch
size, the compiled engine's binding list, and the device buffers. -/
structure uff_runner_impl where
  max_batch_size : Nat
  bindings : List Binding
  buffers_ : List cuda_buffer_t
  deriving DecidableEq, Repr

/-- Outcome of constructing a `uff_runner_impl`: a runner (with the engine
logs), process exit from `create_engine`, or an `assert(0)` abort from
`elementSize` during `createBuffers_`. -/
inductive ConstructResult where
  | runner (r : uff_runner_impl) (logs : List String)
  | exited (code : Nat) (logs : List String)
  | aborted (logs : List String)
  deriving DecidableEq, Repr

/-- The `uff_runner_impl` constructor: `create_engine` (fatal on failure),
then `createBuffers_(max_batch_size)` (fatal on unsupported element type). -/
def uff_runner_construct (parseOk : Bool) (builtEngine : Option (List Binding))
    (max_batch_size : Nat) (dtype : DataType) : ConstructResult :=
  match create_engine parseOk builtEngine dtype with
  | EngineResult.exited code logs => ConstructResult.exited code logs
  | EngineResult.ok bindings logs =>
    match createBuffers_ max_batch_size bindings with
    | none => ConstructResult.aborted logs
    | some bufs =>
      ConstructResult.runner
        { max_batch_size := max_batch_size, bindings := bindings,
          buffers_ := bufs } logs

/-- Observable actions performed by one `uff_runner_impl::operator()` call,
used to state the order of its three phases. -/
inductive Event where
  | copyHostToDevice (bindingIdx : Nat) (nrows : Nat)
  | createExecutionContext
  | execute (batch_size : Nat)
  | destroyContext
  | copyDeviceToHost (bindingIdx : Nat) (nrows : Nat)
  deriving DecidableEq, Repr

/-- One `ttl::copy(buffers_[i].slice(0, batch_size), input)`: the first
`batch_size` rows of the device buffer are overwritten by the first
`batch_size` rows of the host tensor view. -/
def copySliceIn (batch_size : Nat) (host : List (List Nat)) (buf : cuda_buffer_t) :
    cuda_buffer_t :=
  { buf with rows := host.take batch_size ++ buf.rows.drop batch_size }

/-- The "copy input from host" loop of `operator()`: walk the bindings and
buffers in binding order (`i` is the absolute binding index, kept for the
event trace); at each input binding consume the next host input pointer
(`inputs[idx++]`) and copy its first `batch_size` rows into the buffer's
first `batch_size` rows. Reading a missing host pointer is undefined
behaviour in the C++; it is modelled as an empty host. -/
def copyInputFromHost (batch_size : Nat) :
    Nat → List Binding → List cuda_buffer_t → List (List (List Nat)) →
    List cuda_buffer_t × List Event
  | _, _, [], _ => ([], [])
  | _, [], bufs, _ => (bufs, [])
  | i, b :: bs, buf :: bufs, inputs =>
    if b.is_input then
      let rest := copyInputFromHost batch_size (i + 1) bs bufs inputs.tail
      (copySliceIn batch_size (inputs.headD []) buf :: rest.1,
       Event.copyHostToDevice i batch_size :: rest.2)
    else
      let rest := copyInputFromHost batch_size (i + 1) bs bufs inputs
      (buf :: rest.1, rest.2)

/-- The execute block of `operator()`: create an execution context, collect
the device pointers of all buffers in binding order, call
`context->execute(batch_size, buffer_ptrs_.data())` (the backend rewrites
buffer contents through those pointers), and destroy the context. -/
def executeStep (exec : Nat → List (List (List Nat)) → List (List (List Nat)))
    (batch_size : Nat) (bufs : List cuda_buffer_t) :
    List cuda_buffer_t × List Event :=
  (List.zipWith (fun b c => { b with rows := c }) bufs
     (exec batch_size (bufs.map (fun b => b.rows))),
   [Event.createExecutionContext, Event.execute batch_size,
    Event.destroyContext])

/-- The "copy output to host" loop of `operator()`: at each non-input binding,
copy the buffer's first `batch_size` rows to the next host output pointer
(`outputs[idx++]`); the written host contents are returned in order. -/
def copyOutputToHost (batch_size : Nat) :
    Nat → List Binding → List cuda_buffer_t →
    List (List (List Nat)) × List Event
  | _, _, [] => ([], [])
  | _, [], _ => ([], [])
  | i, b :: bs, buf :: bufs =>
    let rest := copyOutputToHost batch_size (i + 1) bs bufs
    if b.is_input then rest
    else (buf.rows.take batch_size :: rest.1,
          Event.copyDeviceToHost i batch_size :: rest.2)

/-- `uff_runner_impl::operator()(inputs, outputs, batch_size)`:
`assert(batch_size <= max_batch_size)` (failure kills the process, modelled
`none`), then copy-in, execute, copy-out. Returns the updated runner state,
the host outputs written, and the event trace. -/
def invoke (exec : Nat → List (List (List Nat)) → List (List (List Nat)))
    (r : uff_runner_impl) (inputs : List (List (List Nat))) (batch_size : Nat) :
    Option (uff_runner_impl × List (List (List Nat)) × List Event) :=
  if batch_size ≤ r.max_batch_size then
    let cin := copyInputFromHost batch_size 0 r.bindings r.buffers_ inputs
    let ex := executeStep exec batch_size cin.1
    let cout := copyOutputToHost batch_size 0 r.bindings ex.1
    some ({ r with buffers_ := ex.1 }, cout.1, cin.2 ++ ex.2 ++ cout.2)
  else none

/-- Process-global state visible to this translation unit: whether the
protobuf library (used by the UFF parser) is still usable. -/
structure ProcessState where
  protobufUp : Bool
  deriving DecidableEq, Repr

/-- `nvuffparser::shutdownProtobufLibrary()`: tears down protobuf for the
whole process. -/
def shutdownProtobufLibrary (s : ProcessState) : ProcessState :=
  { s with protobufUp := false }

/-- `uff_runner_impl::~uff_runner_impl()`: its body is exactly
`nvuffparser::shutdownProtobufLibrary()`, independent of the runner being
destroyed. -/
def uff_runner_destroy (_r : uff_runner_impl) (s : ProcessState) : ProcessState :=
  shutdownProtobufLibrary s

/-- Modelled from the spec: the UFF parser is a protobuf-based facility, so
`createUffParser` (an external collaborator, not in `src/`) cannot parse a
model once the protobuf library has been shut down. A construction attempted
in a process state where protobuf is down therefore behaves as a parse
failure. -/
def construct_in_process (s : ProcessState) (parseOk : Bool)
    (builtEngine : Option (List Binding)) (max_batch_size : Nat)
    (dtype : DataType) : ConstructResult :=
  uff_runner_construct (s.protobufUp && parseOk) builtEngine max_batch_size dtype

/-- Number of input bindings in a binding list (how many host input pointers
`operator()` consumes). -/
def countInputs (bindings : List Binding) : Nat :=
  (bindings.filter (fun b => b.is_input)).length

/-- Absolute indices of the input bindings, starting from offset `i`. -/
def inputIndicesFrom : Nat → List Binding → List Nat
  | _, [] => []
  | i, b :: bs =>
    if b.is_input then i :: inputIndicesFrom (i + 1) bs
    else inputIndicesFrom (i + 1) bs

/-- Absolute indices of the output (non-input) bindings, starting from
offset `i`. -/
def outputIndicesFrom : Nat → List Binding → List Nat
  | _, [] => []
  | i, b :: bs =>
    if b.is_input then outputIndicesFrom (i + 1) bs
    else i :: outputIndicesFrom (i + 1) bs

/-- How many of the first `j` bindings are inputs: the value of the source's
`idx` counter when the copy-in loop reaches binding `j`. -/
def inputRank (bindings : List Binding) (j : Nat) : Nat :=
  countInputs (bindings.take j)

/-- Spec-side description of the copy-in step, written from the spec's words:
"for each input binding in increasing binding order, copy `batchSize` rows
from the corresponding caller-supplied host pointer (consumed in order) into
the first `batchSize` rows of that binding's device buffer"; non-input
buffers are untouched. -/
def specCopyIn (batch_size : Nat) (bindings : List Binding)
    (bufs : List cuda_buffer_t) (inputs : List (List (List Nat))) :
    List cuda_buffer_t :=
  (List.range bufs.length).map (fun j =>
    if (bindings.getD j dummyBinding).is_input then
      { bufs.getD j dummyBuffer with rows :=
          (inputs.getD (inputRank bindings j) []).take batch_size
            ++ (bufs.getD j dummyBuffer).rows.drop batch_size }
    else bufs.getD j dummyBuffer)

/-- Spec-side description of the copy-out step, written from the spec's
words: "for each output binding in increasing binding order, copy `batchSize`
rows from that binding's device-buffer slice into the corresponding
caller-supplied host pointer". -/
def specCopyOut (batch_size : Nat) (bindings : List Binding)
    (bufs : List cuda_buffer_t) : List (List (List Nat)) :=
  (outputIndicesFrom 0 bindings).map
    (fun j => (bufs.getD j dummyBuffer).rows.take batch_size)

/-- The `batch_size`-row slices of the buffer contents `cs` at the positions
`idxs` (used to state what a deterministic backend may depend on and what it
determines). -/
def slicesAt (batch_size : Nat) (idxs : List Nat)
    (cs : List (List (List Nat))) : List (List (List Nat)) :=
  idxs.map (fun j => (cs.getD j []).take batch_size)

/-- A sequence of `operator()` calls against one runner (each call is a pair
of host inputs and a batch size), threading the runner state; `none` if any
call fails its assertion. -/
def invokeSeq (exec : Nat → List (List (List Nat)) → List (List (List Nat))) :
    uff_runner_impl → List (List (List (List Nat)) × Nat) → Option uff_runner_impl
  | r, [] => some r
  | r, c :: rest =>
    match invoke exec r c.1 c.2 with
    | none => none
    | some s => invokeSeq exec s.1 rest

/-- A concrete two-binding runner (one input, one output, 2 bytes per row,
maximum batch size 2) used as a test vehicle in the theorems below. -/
def sampleRunner : uff_runner_impl :=
  { max_batch_size := 2,
    bindings := [{ name := "image", dims := { d := [2] },
                   dtype := DataType.kINT8, is_input := true },
                 { name := "outputs/conf", dims := { d := [2] },
                   dtype := DataType.kINT8, is_input := false }],
    buffers_ := [{ devPtr := 0, rows := [[0, 0], [0, 0]] },
                 { devPtr := 1, rows := [[0, 0], [0, 0]] }] }

/-- A concrete runner with a single input binding, used as a test vehicle in
the theorems below. -/
def sampleInputRunner : uff_runner_impl :=
  { max_batch_size := 2,
    bindings := [{ name := "image", dims := { d := [2] },
                   dtype := DataType.kINT8, is_input := true }],
    buffers_ := [{ devPtr := 0, rows := [[0, 0], [0, 0]] }] }

/-! Helper lemmas about list lookups and the index functions. -/

theorem getD_succ_tail {α : Type} (l : List α) (n : Nat) (d : α) :
    l.getD (n + 1) d = l.tail.getD n d := by
  cases l <;> simp [List.getD]

theorem getD_mem_or_default {α : Type} (l : List α) (n : Nat) (d : α) :
    l.getD n d ∈ l ∨ l.getD n d = d := by
  rcases Nat.lt_or_ge n l.length with h | h
  · left
    rw [List.getD_eq_getElem l d h]
    exact List.getElem_mem _
  · right
    exact List.getD_eq_default _ _ h

theorem getD_map_rows (bufs : List cuda_buffer_t) (j : Nat) :
    (bufs.map (fun b => b.rows)).getD j [] = (bufs.getD j dummyBuffer).rows := by
  induction bufs generalizing j with
  | nil => simp [List.getD, dummyBuffer]
  | cons b bs ih =>
    cases j with
    | zero => simp [List.getD]
    | succ j => simpa [List.getD] using ih j

theorem zipWith_rows_length (bufs : List cuda_buffer_t)
    (cs : List (List (List Nat))) (h : cs.length = bufs.length) :
    (List.zipWith (fun b c => { b with rows := c }) bufs cs).length = bufs.length := by
  rw [List.length_zipWith, h, Nat.min_self]

theorem zipWith_rows_map_rows (bufs : List cuda_buffer_t)
    (cs : List (List (List Nat))) (h : cs.length = bufs.length) :
    (List.zipWith (fun b c => { b with rows := c }) bufs cs).map (fun b => b.rows)
      = cs := by
  induction bufs generalizing cs with
  | nil =>
    cases cs with
    | nil => rfl
    | cons c cs' => simp at h
  | cons b bs ih =>
    cases cs with
    | nil => simp at h
    | cons c cs' =>
      simp only [List.zipWith, List.map]
      rw [ih cs' (by simpa using h)]

theorem zipWith_rows_map_devPtr (bufs : List cuda_buffer_t)
    (cs : List (List (List Nat))) (h : cs.length = bufs.length) :
    (List.zipWith (fun b c => { b with rows := c }) bufs cs).map (fun b => b.devPtr)
      = bufs.map (fun b => b.devPtr) := by
  induction bufs generalizing cs with
  | nil => rfl
  | cons b bs ih =>
    cases cs with
    | nil => simp at h
    | cons c cs' =>
      simp only [List.zipWith, List.map]
      rw [ih cs' (by simpa using h)]

theorem countInputs_nil : countInputs [] = 0 := rfl

theorem countInputs_cons (b : Binding) (l : List Binding) :
    countInputs (b :: l)
      = if b.is_input then countInputs l + 1 else countInputs l := by
  by_cases hb : b.is_input <;> simp [countInputs, List.filter, hb]

theorem inputRank_zero (bindings : List Binding) : inputRank bindings 0 = 0 := rfl

theorem inputRank_cons_succ (b : Binding) (l : List Binding) (j : Nat) :
    inputRank (b :: l) (j + 1)
      = if b.is_input then inputRank l j + 1 else inputRank l j := by
  simp only [inputRank, List.take]
  rw [countInputs_cons]

theorem inputIndicesFrom_succ (i : Nat) (l : List Binding) :
    inputIndicesFrom (i + 1) l = (inputIndicesFrom i l).map (fun k => k + 1) := by
  induction l generalizing i with
  | nil => rfl
  | cons b bs ih =>
    by_cases hb : b.is_input <;> simp [inputIndicesFrom, hb, ih]

theorem outputIndicesFrom_succ (i : Nat) (l : List Binding) :
    outputIndicesFrom (i + 1) l = (outputIndicesFrom i l).map (fun k => k + 1) := by
  induction l generalizing i with
  | nil => rfl
  | cons b bs ih =>
    by_cases hb : b.is_input <;> simp [outputIndicesFrom, hb, ih]

theorem mem_inputIndicesFrom_le (i : Nat) (l : List Binding) :
    ∀ k ∈ inputIndicesFrom i l, i ≤ k := by
  induction l generalizing i with
  | nil => intro k hk; simp [inputIndicesFrom] at hk
  | cons b bs ih =>
    intro k hk
    by_cases hb : b.is_input
    · simp only [inputIndicesFrom, hb, if_pos] at hk
      rcases List.mem_cons.mp hk with h | h
      · omega
      · have := ih (i + 1) k h; omega
    · simp only [inputIndicesFrom, hb, if_neg, Bool.false_eq_true,
        not_false_iff] at hk
      have := ih (i + 1) k hk; omega

theorem mem_outputIndicesFrom_le (i : Nat) (l : List Binding) :
    ∀ k ∈ outputIndicesFrom i l, i ≤ k := by
  induction l generalizing i with
  | nil => intro k hk; simp [outputIndicesFrom] at hk
  | cons b bs ih =>
    intro k hk
    by_cases hb : b.is_input
    · simp only [outputIndicesFrom, hb, if_pos] at hk
      have := ih (i + 1) k hk; omega
    · simp only [outputIndicesFrom, hb, if_neg, Bool.false_eq_true,
        not_false_iff] at hk
      rcases List.mem_cons.mp hk with h | h
      · omega
      · have := ih (i + 1) k h; omega

theorem chain'_inputIndicesFrom (i : Nat) (l : List Binding) :
    List.Chain' (fun a b => a < b) (inputIndicesFrom i l) := by
  induction l generalizing i with
  | nil => simp [inputIndicesFrom]
  | cons b bs ih =>
    by_cases hb : b.is_input
    · simp only [inputIndicesFrom, hb, if_pos]
      refine List.chain'_cons'.mpr ⟨?_, ih (i + 1)⟩
      intro y hy
      have hmem : y ∈ inputIndicesFrom (i + 1) bs := by
        cases hh : inputIndicesFrom (i + 1) bs with
        | nil => simp [hh] at hy
        | cons a as => simp [hh] at hy; simp [hh, hy]
      have := mem_inputIndicesFrom_le (i + 1) bs y hmem
      omega
    · simpa [inputIndicesFrom, hb] using ih (i + 1)

theorem chain'_outputIndicesFrom (i : Nat) (l : List Binding) :
    List.Chain' (fun a b => a < b) (outputIndicesFrom i l) := by
  induction l generalizing i with
  | nil => simp [outputIndicesFrom]
  | cons b bs ih =>
    by_cases hb : b.is_input
    · simpa [outputIndicesFrom, hb] using ih (i + 1)
    · simp only [outputIndicesFrom, hb, if_neg, Bool.false_eq_true,
        not_false_iff]
      refine List.chain'_cons'.mpr ⟨?_, ih (i + 1)⟩
      intro y hy
      have hmem : y ∈ outputIndicesFrom (i + 1) bs := by
        cases hh : outputIndicesFrom (i + 1) bs with
        | nil => simp [hh] at hy
        | cons a as => simp [hh] at hy; simp [hh, hy]
      have := mem_outputIndicesFrom_le (i + 1) bs y hmem
      omega

/-! Helper lemmas about buffer creation and construction. -/

theorem createBuffersGo_length (bsz : Nat) (binds : List Binding) (i : Nat)
    (l : List cuda_buffer_t) (h : createBuffersGo bsz i binds = some l) :
    l.length = binds.length := by
  induction binds generalizing i l with
  | nil =>
    simp only [createBuffersGo] at h
    cases h
    rfl
  | cons b bs ih =>
    simp only [createBuffersGo] at h
    cases hes : elementSize b.dtype with
    | none => rw [hes] at h; cases h
    | some es =>
      rw [hes] at h
      cases hrec : createBuffersGo bsz (i + 1) bs with
      | none => rw [hrec] at h; cases h
      | some rest =>
        rw [hrec] at h
        cases h
        simpa using ih (i + 1) rest hrec

theorem createBuffersGo_getD (bsz : Nat) (binds : List Binding) (i : Nat)
    (l : List cuda_buffer_t) (h : createBuffersGo bsz i binds = some l) :
    ∀ j, j < binds.length →
      ∃ es, elementSize (binds.getD j dummyBinding).dtype = some es ∧
        l.getD j dummyBuffer
          = { devPtr := i + j,
              rows := List.replicate bsz
                (List.replicate (volume (binds.getD j dummyBinding).dims * es) 0) } := by
  induction binds generalizing i l with
  | nil => intro j hj; simp at hj
  | cons b bs ih =>
    intro j hj
    simp only [createBuffersGo] at h
    cases hes : elementSize b.dtype with
    | none => rw [hes] at h; cases h
    | some es =>
      rw [hes] at h
      cases hrec : createBuffersGo bsz (i + 1) bs with
      | none => rw [hrec] at h; cases h
      | some rest =>
        rw [hrec] at h
        cases h
        cases j with
        | zero =>
          refine ⟨es, ?_, ?_⟩
          · simpa [List.getD] using hes
          · simp [List.getD]
        | succ j =>
          have hj' : j < bs.length := by simpa using hj
          obtain ⟨es', hes', heq⟩ := ih (i + 1) rest hrec j hj'
          refine ⟨es', by simpa [List.getD] using hes', ?_⟩
          simp only [List.getD_cons_succ]
          rw [heq]
          have : i + 1 + j = i + (j + 1) := by omega
          simp [List.getD, this]

theorem createBuffersGo_supported (bsz : Nat) (binds : List Binding) (i : Nat)
    (l : List cuda_buffer_t) (h : createBuffersGo bsz i binds = some l) :
    ∀ b ∈ binds, ∃ es, elementSize b.dtype = some es := by
  induction binds generalizing i l with
  | nil => intro b hb; simp at hb
  | cons b0 bs ih =>
    intro b hb
    simp only [createBuffersGo] at h
    cases hes : elementSize b0.dtype with
    | none => rw [hes] at h; cases h
    | some es =>
      rw [hes] at h
      cases hrec : createBuffersGo bsz (i + 1) bs with
      | none => rw [hrec] at h; cases h
      | some rest =>
        rcases List.mem_cons.mp hb with heq | hmem
        · exact ⟨es, heq ▸ hes⟩
        · exact ih (i + 1) rest hrec b hmem

theorem createBuffersGo_unsupported (bsz : Nat) (binds : List Binding) (i : Nat)
    (b : Binding) (hb : b ∈ binds) (hun : elementSize b.dtype = none) :
    createBuffersGo bsz i binds = none := by
  induction binds generalizing i with
  | nil => simp at hb
  | cons b0 bs ih =>
    rcases List.mem_cons.mp hb with heq | hmem
    · subst heq
      simp [createBuffersGo, hun]
    · simp only [createBuffersGo]
      cases hes : elementSize b0.dtype with
      | none => rfl
      | some es => rw [ih (i + 1) hmem]

theorem construct_runner_inv (p : Bool) (be : Option (List Binding))
    (mbs : Nat) (dt : DataType) (r : uff_runner_impl) (logs : List String)
    (h : uff_runner_construct p be mbs dt = ConstructResult.runner r logs) :
    ∃ binds, p = true ∧ be = some binds ∧ logs = [] ∧ r.bindings = binds ∧
      r.max_batch_size = mbs ∧ createBuffers_ mbs binds = some r.buffers_ := by
  cases p with
  | false =>
    simp [uff_runner_construct, create_engine, loadModelAndCreateEngine] at h
  | true =>
    cases be with
    | none =>
      simp [uff_runner_construct, create_engine, loadModelAndCreateEngine] at h
    | some binds =>
      refine ⟨binds, rfl, rfl, ?_⟩
      simp only [uff_runner_construct, create_engine,
        loadModelAndCreateEngine, if_pos] at h
      cases hcb : createBuffers_ mbs binds with
      | none => rw [hcb] at h; cases h
      | some bufs =>
        rw [hcb] at h
        cases h
        exact ⟨rfl, rfl, rfl, rfl⟩

/-! Claim C2 and claim C6 and claim C10. -/

/-- C2, counterexample to the claim as stated: when the parse succeeds but
`buildCudaEngine` returns no engine (`builtEngine = none`), construction does
exit with status 1, but the only logged diagnostic is
`"Failed to created engine"`, which does not name the requested precision
(the precision-naming message emitted on parse failure is absent). -/
theorem uff_engine_build_failure_lacks_precision_log :
    uff_runner_construct true none 4 DataType.kFLOAT
      = ConstructResult.exited 1 ["Failed to created engine"] ∧
    ("Failed to created engine of data type: " ++ dtypeString DataType.kFLOAT)
      ∉ (["Failed to created engine"] : List String) := by
  refine ⟨rfl, ?_⟩
  decide

/-- C2 (amended): when the model fails to parse, construction logs a
diagnostic naming the requested precision followed by a generic diagnostic
and terminates the process with exit status 1; when the parse succeeds but
the backend builds no engine, construction logs only the generic diagnostic
(not naming the precision) and terminates with exit status 1. In both cases
the outcome is process exit: no Runner object is produced and no error value
is returned to the caller. -/
theorem uff_engine_failure_exits_nonzero :
    (∀ (be : Option (List Binding)) (mbs : Nat) (dt : DataType),
       uff_runner_construct false be mbs dt
         = ConstructResult.exited 1
             ["Failed to created engine of data type: " ++ dtypeString dt,
              "Failed to created engine"]) ∧
    (∀ (mbs : Nat) (dt : DataType),
       uff_runner_construct true none mbs dt
         = ConstructResult.exited 1 ["Failed to created engine"]) := by
  constructor
  · intro be mbs dt
    rfl
  · intro mbs dt
    rfl

/-- C6, counterexample to the claim as stated: the source's only check is
`assert(batch_size <= max_batch_size)`, so `batchSize = 0` — outside the
claimed valid range `0 < batchSize ≤ maximum_batch_size` — is not rejected:
the invocation runs to completion (copying zero rows and executing with
batch size 0) instead of failing the caller contract. -/
theorem uff_invoke_batch_zero_accepted :
    invoke (fun _ cs => cs)
        { max_batch_size := 4, bindings := [], buffers_ := [] } [] 0
      = some ({ max_batch_size := 4, bindings := [], buffers_ := [] }, [],
          [Event.createExecutionContext, Event.execute 0,
           Event.destroyContext]) := rfl

/-- C6 (amended): `invoke` with `batchSize = maximum_batch_size` passes the
assertion and succeeds; any `batchSize > maximum_batch_size` (in particular
`maximum_batch_size + 1`) fails the assertion and is fatal rather than
truncated; but `batchSize = 0` is not rejected — the assertion checks only
the upper bound, so the lower bound of the documented range is unenforced. -/
theorem uff_invoke_batch_bounds (exec : Nat → List (List (List Nat)) → List (List (List Nat)))
    (r : uff_runner_impl) (inputs : List (List (List Nat))) :
    invoke exec r inputs r.max_batch_size ≠ none ∧
    (∀ bs, r.max_batch_size < bs → invoke exec r inputs bs = none) ∧
    invoke exec r inputs 0 ≠ none := by
  refine ⟨?_, ?_, ?_⟩
  · simp [invoke]
  · intro bs hbs
    simp [invoke, Nat.not_le.mpr hbs]
  · simp [invoke]

/-- C6 witness: on a concrete runner with maximum batch size 4,
`invoke` at batch size 4 is not rejected and at batch size 5 it is fatal. -/
theorem uff_invoke_batch_bounds_witness :
    invoke (fun _ cs => cs)
        { max_batch_size := 4, bindings := [], buffers_ := [] } [] 4 ≠ none ∧
    invoke (fun _ cs => cs)
        { max_batch_size := 4, bindings := [], buffers_ := [] } [] 5 = none :=
  ⟨(uff_invoke_batch_bounds (fun _ cs => cs)
      { max_batch_size := 4, bindings := [], buffers_ := [] } []).1,
   (uff_invoke_batch_bounds (fun _ cs => cs)
      { max_batch_size := 4, bindings := [], buffers_ := [] } []).2.1 5
      (by decide)⟩

/-- C10 (confirmed): the destructor's entire body is
`nvuffparser::shutdownProtobufLibrary()`: it acts on process-global state,
independently of which Runner is destroyed, leaving the protobuf library
shut down for the whole process; any construction attempted afterwards in
that process behaves as a parse failure and terminates with exit status 1
(the model-parsing facility — an external protobuf-based collaborator — is
modelled as unusable once protobuf is shut down). -/
theorem uff_destructor_shuts_down_protobuf :
    (∀ (r : uff_runner_impl) (s : ProcessState),
       (uff_runner_destroy r s).protobufUp = false) ∧
    (∀ (r : uff_runner_impl) (s : ProcessState) (pOk : Bool)
       (be : Option (List Binding)) (mbs : Nat) (dt : DataType),
       construct_in_process (uff_runner_destroy r s) pOk be mbs dt
         = ConstructResult.exited 1
             ["Failed to created engine of data type: " ++ dtypeString dt,
              "Failed to created engine"]) := by
  constructor
  · intro r s
    rfl
  · intro r s pOk be mbs dt
    rfl

/-! Claim C3 and claim C4. -/

theorem foldl_mul_pos (l : List Nat) :
    ∀ a : Nat, 0 < a → (∀ x ∈ l, 0 < x) → 0 < l.foldl (fun v x => v * x) a := by
  induction l with
  | nil => intro a ha _; simpa using ha
  | cons x xs ih =>
    intro a ha hx
    simp only [List.foldl]
    exact ih (a * x) (Nat.mul_pos ha (hx x (List.mem_cons_self x xs)))
      (fun y hy => hx y (List.mem_cons_of_mem x hy))

/-- C3, counterexample to the claim as stated: nothing in construction
checks that a binding's volume is positive. A binding with shape `(0)` and
element type 32-bit float passes `elementSize` (byte size 4), so the Runner
constructs successfully even though the binding's volume is 0, refuting
"the binding's volume is strictly positive" for successfully constructed
Runners. -/
theorem uff_binding_zero_volume_constructs :
    uff_runner_construct true
        (some [{ name := "image", dims := { d := [0] },
                 dtype := DataType.kFLOAT, is_input := true }]) 4 DataType.kFLOAT
      = ConstructResult.runner
          { max_batch_size := 4,
            bindings := [{ name := "image", dims := { d := [0] },
                           dtype := DataType.kFLOAT, is_input := true }],
            buffers_ := [{ devPtr := 0, rows := [[], [], [], []] }] } [] ∧
    volume { d := [0] } = 0 := ⟨rfl, rfl⟩

/-- C3 (amended): for every binding of a successfully constructed Runner the
element byte size is in {1, 2, 4} (4 for 32-bit float, 2 for 16-bit float,
1 for 8-bit integer), and constructing a Runner whose engine has a binding
with an element type outside this set aborts the process (the `assert(0)` in
`elementSize`); a binding's volume is strictly positive whenever all of its
shape dimensions are positive, but construction does not enforce positivity
(a zero dimension yields a zero-volume binding that still constructs). -/
theorem uff_binding_element_sizes :
    (∀ (p : Bool) (be : Option (List Binding)) (mbs : Nat) (dt : DataType)
       (r : uff_runner_impl) (logs : List String),
       uff_runner_construct p be mbs dt = ConstructResult.runner r logs →
       ∀ b ∈ r.bindings,
         elementSize b.dtype = some 1 ∨ elementSize b.dtype = some 2 ∨
           elementSize b.dtype = some 4) ∧
    (∀ (binds : List Binding) (mbs : Nat) (dt : DataType) (b : Binding),
       b ∈ binds → elementSize b.dtype = none →
       uff_runner_construct true (some binds) mbs dt
         = ConstructResult.aborted []) ∧
    (∀ dims : Dims, (∀ x ∈ dims.d, 0 < x) → 0 < volume dims) := by
  refine ⟨?_, ?_, ?_⟩
  · intro p be mbs dt r logs h b hb
    obtain ⟨binds, hp, hbe, hlogs, hbinds, hmax, hcb⟩ :=
      construct_runner_inv p be mbs dt r logs h
    rw [hbinds] at hb
    obtain ⟨es, hes⟩ :=
      createBuffersGo_supported mbs binds 0 r.buffers_ hcb b hb
    cases hdt : b.dtype <;> simp [elementSize, hdt] at hes ⊢
  · intro binds mbs dt b hb hun
    have h0 := createBuffersGo_unsupported mbs binds 0 b hb hun
    simp [uff_runner_construct, create_engine, loadModelAndCreateEngine,
      createBuffers_, h0]
  · intro dims hpos
    exact foldl_mul_pos dims.d 1 Nat.one_pos hpos

/-- C3 witness: a runner constructed from a single 16-bit-float binding has
element byte size in {1, 2, 4}; a 32-bit-integer binding aborts
construction; the concrete shape (3, 256, 192) has positive volume. -/
theorem uff_binding_element_sizes_witness :
    (elementSize DataType.kHALF = some 1 ∨ elementSize DataType.kHALF = some 2 ∨
       elementSize DataType.kHALF = some 4) ∧
    uff_runner_construct true
        (some [{ name := "image", dims := { d := [2] },
                 dtype := DataType.kINT32, is_input := true }]) 2 DataType.kFLOAT
      = ConstructResult.aborted [] ∧
    0 < volume { d := [3, 256, 192] } :=
  ⟨uff_binding_element_sizes.1 true
      (some [{ name := "image", dims := { d := [2] },
               dtype := DataType.kHALF, is_input := true }]) 2 DataType.kFLOAT
      { max_batch_size := 2,
        bindings := [{ name := "image", dims := { d := [2] },
                       dtype := DataType.kHALF, is_input := true }],
        buffers_ := [{ devPtr := 0, rows := [[0, 0, 0, 0], [0, 0, 0, 0]] }] }
      [] rfl
      { name := "image", dims := { d := [2] },
        dtype := DataType.kHALF, is_input := true } (by simp),
   uff_binding_element_sizes.2.1
      [{ name := "image", dims := { d := [2] },
         dtype := DataType.kINT32, is_input := true }] 2 DataType.kFLOAT
      { name := "image", dims := { d := [2] },
        dtype := DataType.kINT32, is_input := true } (by simp) rfl,
   uff_binding_element_sizes.2.2 { d := [3, 256, 192] } (by decide)⟩

/-- C4 (confirmed): a successful construction allocates exactly one device
buffer per binding of the compiled engine, in binding order, and buffer `j`
has `maximum_batch_size` rows of `volume(binding j) × elementByteSize
(binding j)` bytes each, hence capacity `maximum_batch_size ×
volume(binding j) × elementByteSize(binding j)` bytes in total. -/
theorem uff_construction_buffer_capacity
    (p : Bool) (be : Option (List Binding)) (mbs : Nat) (dt : DataType)
    (r : uff_runner_impl) (logs : List String)
    (h : uff_runner_construct p be mbs dt = ConstructResult.runner r logs) :
    r.max_batch_size = mbs ∧
    r.buffers_.length = r.bindings.length ∧
    ∀ j, j < r.bindings.length →
      ∃ es, elementSize (r.bindings.getD j dummyBinding).dtype = some es ∧
        (r.buffers_.getD j dummyBuffer).devPtr = j ∧
        (r.buffers_.getD j dummyBuffer).rows.length = mbs ∧
        (∀ row ∈ (r.buffers_.getD j dummyBuffer).rows,
           row.length = volume (r.bindings.getD j dummyBinding).dims * es) ∧
        bufferBytes (r.buffers_.getD j dummyBuffer)
          = mbs * (volume (r.bindings.getD j dummyBinding).dims * es) := by
  obtain ⟨binds, hp, hbe, hlogs, hbinds, hmax, hcb⟩ :=
    construct_runner_inv p be mbs dt r logs h
  subst hbinds
  refine ⟨hmax, createBuffersGo_length mbs r.bindings 0 r.buffers_ hcb, ?_⟩
  intro j hj
  obtain ⟨es, hes, heq⟩ :=
    createBuffersGo_getD mbs r.bindings 0 r.buffers_ hcb j hj
  refine ⟨es, hes, ?_, ?_, ?_, ?_⟩
  · rw [heq]; simp
  · rw [heq]; simp
  · rw [heq]
    intro row hrow
    have := List.eq_of_mem_replicate hrow
    rw [this]
    simp
  · rw [heq]
    simp [bufferBytes, List.map_replicate, List.sum_replicate, Nat.mul_comm]

/-- C4 witness: constructing with one 8-bit-integer binding of shape (2) and
maximum batch size 2 yields one buffer whose row count equals the maximum
batch size. -/
theorem uff_construction_buffer_capacity_witness :
    ([{ devPtr := 0, rows := [[0, 0], [0, 0]] }] : List cuda_buffer_t).length
      = ([{ name := "image", dims := { d := [2] },
            dtype := DataType.kINT8, is_input := true }] : List Binding).length ∧
    (([{ devPtr := 0, rows := [[0, 0], [0, 0]] }] : List cuda_buffer_t).getD 0
        dummyBuffer).rows.length = 2 := by
  have h := uff_construction_buffer_capacity true
    (some [{ name := "image", dims := { d := [2] },
             dtype := DataType.kINT8, is_input := true }]) 2 DataType.kFLOAT
    { max_batch_size := 2,
      bindings := [{ name := "image", dims := { d := [2] },
                     dtype := DataType.kINT8, is_input := true }],
      buffers_ := [{ devPtr := 0, rows := [[0, 0], [0, 0]] }] } [] rfl
  obtain ⟨es, hes, hdev, hlen, hrow, hbytes⟩ := h.2.2 0 (by simp)
  exact ⟨h.2.1, hlen⟩

/-! Helper lemmas about the copy-in, execute and copy-out steps. -/

theorem getD_zero_headD {α : Type} (l : List α) (d : α) : l.getD 0 d = l.headD d := by
  cases l <;> rfl

theorem copyIn_fst_length (bs i : Nat) (binds : List Binding)
    (bufs : List cuda_buffer_t) (ins : List (List (List Nat))) :
    (copyInputFromHost bs i binds bufs ins).1.length = bufs.length := by
  induction binds generalizing i bufs ins with
  | nil => cases bufs <;> rfl
  | cons b bs' ih =>
    cases bufs with
    | nil => rfl
    | cons buf bufs' =>
      by_cases hb : b.is_input <;> simp [copyInputFromHost, hb, ih]

theorem copyIn_fst_devPtr (bs i : Nat) (binds : List Binding)
    (bufs : List cuda_buffer_t) (ins : List (List (List Nat))) :
    (copyInputFromHost bs i binds bufs ins).1.map (fun b => b.devPtr)
      = bufs.map (fun b => b.devPtr) := by
  induction binds generalizing i bufs ins with
  | nil => cases bufs <;> rfl
  | cons b bs' ih =>
    cases bufs with
    | nil => rfl
    | cons buf bufs' =>
      by_cases hb : b.is_input <;> simp [copyInputFromHost, copySliceIn, hb, ih]

theorem copyIn_getD (bs : Nat) (binds : List Binding) :
    ∀ (i j : Nat) (bufs : List cuda_buffer_t) (ins : List (List (List Nat))),
      binds.length = bufs.length → j < bufs.length →
      (copyInputFromHost bs i binds bufs ins).1.getD j dummyBuffer
        = if (binds.getD j dummyBinding).is_input
          then copySliceIn bs (ins.getD (inputRank binds j) [])
                 (bufs.getD j dummyBuffer)
          else bufs.getD j dummyBuffer := by
  induction binds with
  | nil =>
    intro i j bufs ins hlen hj
    cases bufs with
    | nil => simp at hj
    | cons buf bufs' => simp at hlen
  | cons b bs' ih =>
    intro i j bufs ins hlen hj
    cases bufs with
    | nil => simp at hj
    | cons buf bufs' =>
      have hlen' : bs'.length = bufs'.length := by simpa using hlen
      by_cases hb : b.is_input
      · have hstep : (copyInputFromHost bs i (b :: bs') (buf :: bufs') ins).1
            = copySliceIn bs (ins.headD []) buf
                :: (copyInputFromHost bs (i + 1) bs' bufs' ins.tail).1 := by
          simp [copyInputFromHost, hb]
        cases j with
        | zero =>
          rw [hstep]
          show copySliceIn bs (ins.headD []) buf
            = if b.is_input then copySliceIn bs (ins.getD 0 []) buf else buf
          rw [if_pos hb, getD_zero_headD]
        | succ j =>
          have hj' : j < bufs'.length := by simpa using hj
          rw [hstep]
          show (copyInputFromHost bs (i + 1) bs' bufs' ins.tail).1.getD j dummyBuffer
            = if (bs'.getD j dummyBinding).is_input
              then copySliceIn bs (ins.getD (inputRank (b :: bs') (j + 1)) [])
                     (bufs'.getD j dummyBuffer)
              else bufs'.getD j dummyBuffer
          rw [ih (i + 1) j bufs' ins.tail hlen' hj']
          rw [inputRank_cons_succ, if_pos hb, getD_succ_tail]
      · have hstep : (copyInputFromHost bs i (b :: bs') (buf :: bufs') ins).1
            = buf :: (copyInputFromHost bs (i + 1) bs' bufs' ins).1 := by
          simp [copyInputFromHost, hb]
        cases j with
        | zero =>
          rw [hstep]
          show buf
            = if b.is_input then copySliceIn bs (ins.getD 0 []) buf else buf
          rw [if_neg hb]
        | succ j =>
          have hj' : j < bufs'.length := by simpa using hj
          rw [hstep]
          show (copyInputFromHost bs (i + 1) bs' bufs' ins).1.getD j dummyBuffer
            = if (bs'.getD j dummyBinding).is_input
              then copySliceIn bs (ins.getD (inputRank (b :: bs') (j + 1)) [])
                     (bufs'.getD j dummyBuffer)
              else bufs'.getD j dummyBuffer
          rw [ih (i + 1) j bufs' ins hlen' hj']
          rw [inputRank_cons_succ, if_neg hb]

theorem copyIn_eq_spec (bs : Nat) (binds : List Binding)
    (bufs : List cuda_buffer_t) (ins : List (List (List Nat)))
    (hlen : binds.length = bufs.length) :
    (copyInputFromHost bs 0 binds bufs ins).1 = specCopyIn bs binds bufs ins := by
  apply List.ext_getElem
  · rw [copyIn_fst_length]
    simp [specCopyIn]
  · intro j h1 h2
    have hj : j < bufs.length := by rwa [copyIn_fst_length] at h1
    rw [← List.getD_eq_getElem _ dummyBuffer h1,
        ← List.getD_eq_getElem _ dummyBuffer h2]
    rw [copyIn_getD bs binds 0 j bufs ins hlen hj]
    have hj2 : j < ((List.range bufs.length).map (fun j =>
        if (binds.getD j dummyBinding).is_input then
          { bufs.getD j dummyBuffer with rows :=
              (ins.getD (inputRank binds j) []).take bs
                ++ (bufs.getD j dummyBuffer).rows.drop bs }
        else bufs.getD j dummyBuffer)).length := by
      simpa [specCopyIn] using h2
    show _ = (specCopyIn bs binds bufs ins).getD j dummyBuffer
    simp only [specCopyIn]
    rw [List.getD_eq_getElem _ dummyBuffer hj2, List.getElem_map,
      List.getElem_range]
    by_cases hin : (binds.getD j dummyBinding).is_input = true
    · simp only [if_pos hin, copySliceIn]
    · simp only [if_neg hin]

theorem copyIn_snd (bs : Nat) (binds : List Binding) :
    ∀ (i : Nat) (bufs : List cuda_buffer_t) (ins : List (List (List Nat))),
      binds.length = bufs.length →
      (copyInputFromHost bs i binds bufs ins).2
        = (inputIndicesFrom i binds).map (fun k => Event.copyHostToDevice k bs) := by
  induction binds with
  | nil =>
    intro i bufs ins hlen
    cases bufs <;> simp [copyInputFromHost, inputIndicesFrom]
  | cons b bs' ih =>
    intro i bufs ins hlen
    cases bufs with
    | nil => simp at hlen
    | cons buf bufs' =>
      have hlen' : bs'.length = bufs'.length := by simpa using hlen
      by_cases hb : b.is_input <;>
        simp [copyInputFromHost, inputIndicesFrom, hb,
          ih (i + 1) bufs' ins.tail hlen', ih (i + 1) bufs' ins hlen']

theorem copyIn_drop (bs : Nat) (binds : List Binding) :
    ∀ (i : Nat) (bufs : List cuda_buffer_t) (ins : List (List (List Nat))),
      countInputs binds ≤ ins.length →
      (∀ h ∈ ins, bs ≤ h.length) →
      ∀ j, ((copyInputFromHost bs i binds bufs ins).1.getD j dummyBuffer).rows.drop bs
        = ((bufs.getD j dummyBuffer).rows).drop bs := by
  induction binds with
  | nil =>
    intro i bufs ins hcount hrows j
    cases bufs <;> rfl
  | cons b bs' ih =>
    intro i bufs ins hcount hrows j
    cases bufs with
    | nil => rfl
    | cons buf bufs' =>
      by_cases hb : b.is_input
      · have hcount' : countInputs (b :: bs') = countInputs bs' + 1 := by
          rw [countInputs_cons, if_pos hb]
        cases ins with
        | nil => simp [hcount'] at hcount
        | cons h0 t =>
          have hh0 : bs ≤ h0.length := hrows h0 (List.mem_cons_self h0 t)
          have htake : (h0.take bs).length = bs := by
            rw [List.length_take]
            exact Nat.min_eq_left hh0
          cases j with
          | zero =>
            simp only [copyInputFromHost, hb, if_pos, List.getD_cons_zero]
            show ((copySliceIn bs ((h0 :: t).headD []) buf).rows).drop bs = _
            simp only [copySliceIn, List.headD]
            calc (h0.take bs ++ buf.rows.drop bs).drop bs
                = (h0.take bs ++ buf.rows.drop bs).drop (h0.take bs).length := by
                  rw [htake]
              _ = buf.rows.drop bs := List.drop_left _ _
          | succ j =>
            simp only [copyInputFromHost, hb, if_pos, List.getD_cons_succ]
            have hc2 : countInputs bs' ≤ t.length := by
              rw [hcount', List.length_cons] at hcount
              omega
            exact ih (i + 1) bufs' t hc2
              (fun h hh => hrows h (List.mem_cons_of_mem h0 hh)) j
      · cases j with
        | zero =>
          simp [copyInputFromHost, hb, List.getD]
        | succ j =>
          simp only [copyInputFromHost, hb, if_neg, Bool.false_eq_true,
            not_false_iff, List.getD_cons_succ]
          have hcount' : countInputs bs' ≤ ins.length := by
            rw [countInputs_cons, if_neg (by simp [hb])] at hcount
            exact hcount
          exact ih (i + 1) bufs' ins hcount' hrows j

theorem slicesAt_shift (bs : Nat) (l : List Nat) (c0 : List (List Nat))
    (cs : List (List (List Nat))) :
    slicesAt bs (l.map (fun k => k + 1)) (c0 :: cs) = slicesAt bs l cs := by
  simp only [slicesAt, List.map_map]
  apply List.map_congr_left
  intro j _
  simp [Function.comp, getD_succ_tail]

theorem slicesAt_cons_zero (bs : Nat) (idxs : List Nat) (c0 : List (List Nat))
    (cs : List (List (List Nat))) :
    slicesAt bs (0 :: idxs) (c0 :: cs)
      = c0.take bs :: slicesAt bs idxs (c0 :: cs) := rfl

theorem copyIn_inputSlices (bs : Nat) (binds : List Binding) :
    ∀ (i : Nat) (bufs : List cuda_buffer_t) (ins : List (List (List Nat))),
      binds.length = bufs.length →
      countInputs binds ≤ ins.length →
      (∀ h ∈ ins, bs ≤ h.length) →
      slicesAt bs (inputIndicesFrom 0 binds)
          ((copyInputFromHost bs i binds bufs ins).1.map (fun b => b.rows))
        = (ins.take (countInputs binds)).map (fun h => h.take bs) := by
  induction binds with
  | nil =>
    intro i bufs ins hlen hcount hrows
    simp [inputIndicesFrom, slicesAt, countInputs]
  | cons b bs' ih =>
    intro i bufs ins hlen hcount hrows
    cases bufs with
    | nil => simp at hlen
    | cons buf bufs' =>
      have hlen' : bs'.length = bufs'.length := by simpa using hlen
      by_cases hb : b.is_input
      · have hcount1 : countInputs (b :: bs') = countInputs bs' + 1 := by
          rw [countInputs_cons, if_pos hb]
        cases ins with
        | nil => simp [hcount1] at hcount
        | cons h0 t =>
          have hh0 : bs ≤ h0.length := hrows h0 (List.mem_cons_self h0 t)
          have htake : (h0.take bs).length = bs := by
            rw [List.length_take]
            exact Nat.min_eq_left hh0
          have hstep : (copyInputFromHost bs i (b :: bs') (buf :: bufs') (h0 :: t)).1
              = copySliceIn bs h0 buf
                  :: (copyInputFromHost bs (i + 1) bs' bufs' t).1 := by
            simp [copyInputFromHost, hb]
          have hidx : inputIndicesFrom 0 (b :: bs')
              = 0 :: (inputIndicesFrom 0 bs').map (fun k => k + 1) := by
            rw [show inputIndicesFrom 0 (b :: bs')
                = 0 :: inputIndicesFrom 1 bs' by simp [inputIndicesFrom, hb]]
            rw [inputIndicesFrom_succ]
          have hslice0 : (copySliceIn bs h0 buf).rows.take bs = h0.take bs := by
            simp only [copySliceIn]
            calc (h0.take bs ++ buf.rows.drop bs).take bs
                = (h0.take bs ++ buf.rows.drop bs).take (h0.take bs).length := by
                  rw [htake]
              _ = h0.take bs := List.take_left _ _
          have hc2 : countInputs bs' ≤ t.length := by
            rw [hcount1, List.length_cons] at hcount
            omega
          have hr2 : ∀ h ∈ t, bs ≤ h.length :=
            fun h hh => hrows h (List.mem_cons_of_mem h0 hh)
          rw [hstep, hidx, List.map_cons, slicesAt_cons_zero, slicesAt_shift]
          rw [hslice0, ih (i + 1) bufs' t hlen' hc2 hr2, hcount1]
          rfl
      · have hcount1 : countInputs (b :: bs') = countInputs bs' := by
          rw [countInputs_cons, if_neg hb]
        have hstep : (copyInputFromHost bs i (b :: bs') (buf :: bufs') ins).1
            = buf :: (copyInputFromHost bs (i + 1) bs' bufs' ins).1 := by
          simp [copyInputFromHost, hb]
        have hidx : inputIndicesFrom 0 (b :: bs')
            = (inputIndicesFrom 0 bs').map (fun k => k + 1) := by
          rw [show inputIndicesFrom 0 (b :: bs') = inputIndicesFrom 1 bs'
              by simp [inputIndicesFrom, hb]]
          rw [inputIndicesFrom_succ]
        rw [hstep, hidx, List.map_cons, slicesAt_shift]
        rw [ih (i + 1) bufs' ins hlen' (hcount1 ▸ hcount) hrows, hcount1]

theorem copyOut_fst_spec (bs : Nat) (binds : List Binding) :
    ∀ (i : Nat) (bufs : List cuda_buffer_t), binds.length = bufs.length →
      (copyOutputToHost bs i binds bufs).1 = specCopyOut bs binds bufs := by
  induction binds with
  | nil =>
    intro i bufs hlen
    cases bufs with
    | nil => rfl
    | cons buf bufs' => simp at hlen
  | cons b bs' ih =>
    intro i bufs hlen
    cases bufs with
    | nil => simp at hlen
    | cons buf bufs' =>
      have hlen' : bs'.length = bufs'.length := by simpa using hlen
      by_cases hb : b.is_input
      · have hstep : (copyOutputToHost bs i (b :: bs') (buf :: bufs')).1
            = (copyOutputToHost bs (i + 1) bs' bufs').1 := by
          simp [copyOutputToHost, hb]
        rw [hstep, ih (i + 1) bufs' hlen']
        simp only [specCopyOut]
        rw [show outputIndicesFrom 0 (b :: bs') = outputIndicesFrom 1 bs'
            by simp [outputIndicesFrom, hb]]
        rw [outputIndicesFrom_succ, List.map_map]
        apply List.map_congr_left
        intro j _
        simp [Function.comp, List.getD_cons_succ]
      · have hstep : (copyOutputToHost bs i (b :: bs') (buf :: bufs')).1
            = buf.rows.take bs :: (copyOutputToHost bs (i + 1) bs' bufs').1 := by
          simp [copyOutputToHost, hb]
        rw [hstep, ih (i + 1) bufs' hlen']
        simp only [specCopyOut]
        rw [show outputIndicesFrom 0 (b :: bs')
            = 0 :: outputIndicesFrom 1 bs' by simp [outputIndicesFrom, hb]]
        rw [outputIndicesFrom_succ, List.map_cons, List.map_map]
        refine congrArg₂ _ rfl ?_
        apply List.map_congr_left
        intro j _
        simp [Function.comp, List.getD_cons_succ]

theorem copyOut_snd (bs : Nat) (binds : List Binding) :
    ∀ (i : Nat) (bufs : List cuda_buffer_t), binds.length = bufs.length →
      (copyOutputToHost bs i binds bufs).2
        = (outputIndicesFrom i binds).map (fun k => Event.copyDeviceToHost k bs) := by
  induction binds with
  | nil =>
    intro i bufs hlen
    cases bufs <;> simp [copyOutputToHost, outputIndicesFrom]
  | cons b bs' ih =>
    intro i bufs hlen
    cases bufs with
    | nil => simp at hlen
    | cons buf bufs' =>
      have hlen' : bs'.length = bufs'.length := by simpa using hlen
      by_cases hb : b.is_input <;>
        simp [copyOutputToHost, outputIndicesFrom, hb, ih (i + 1) bufs' hlen']

theorem specCopyOut_slicesAt (bs : Nat) (binds : List Binding)
    (bufs : List cuda_buffer_t) :
    specCopyOut bs binds bufs
      = slicesAt bs (outputIndicesFrom 0 binds) (bufs.map (fun b => b.rows)) := by
  simp only [specCopyOut, slicesAt]
  apply List.map_congr_left
  intro j _
  rw [getD_map_rows]

theorem executeStep_fst_map_rows
    (exec : Nat → List (List (List Nat)) → List (List (List Nat)))
    (bs : Nat) (bufs : List cuda_buffer_t)
    (hlen : (exec bs (bufs.map (fun b => b.rows))).length = bufs.length) :
    (executeStep exec bs bufs).1.map (fun b => b.rows)
      = exec bs (bufs.map (fun b => b.rows)) :=
  zipWith_rows_map_rows bufs _ hlen

theorem executeStep_fst_devPtr
    (exec : Nat → List (List (List Nat)) → List (List (List Nat)))
    (bs : Nat) (bufs : List cuda_buffer_t)
    (hlen : (exec bs (bufs.map (fun b => b.rows))).length = bufs.length) :
    (executeStep exec bs bufs).1.map (fun b => b.devPtr)
      = bufs.map (fun b => b.devPtr) :=
  zipWith_rows_map_devPtr bufs _ hlen

theorem executeStep_fst_length
    (exec : Nat → List (List (List Nat)) → List (List (List Nat)))
    (bs : Nat) (bufs : List cuda_buffer_t)
    (hlen : (exec bs (bufs.map (fun b => b.rows))).length = bufs.length) :
    (executeStep exec bs bufs).1.length = bufs.length :=
  zipWith_rows_length bufs _ hlen

theorem executeStep_getD_rows
    (exec : Nat → List (List (List Nat)) → List (List (List Nat)))
    (bs : Nat) (bufs : List cuda_buffer_t)
    (hlen : (exec bs (bufs.map (fun b => b.rows))).length = bufs.length)
    (j : Nat) :
    ((executeStep exec bs bufs).1.getD j dummyBuffer).rows
      = (exec bs (bufs.map (fun b => b.rows))).getD j [] := by
  rw [← getD_map_rows, executeStep_fst_map_rows exec bs bufs hlen]

theorem executeStep_identity (bs : Nat) (bufs : List cuda_buffer_t) :
    (executeStep (fun _ cs => cs) bs bufs).1 = bufs := by
  simp only [executeStep]
  induction bufs with
  | nil => rfl
  | cons b bt ih =>
    simp only [List.map, List.zipWith]
    rw [ih]

theorem invoke_eq (exec : Nat → List (List (List Nat)) → List (List (List Nat)))
    (r : uff_runner_impl) (inputs : List (List (List Nat))) (bs : Nat)
    (hbs : bs ≤ r.max_batch_size) :
    invoke exec r inputs bs
      = some ({ r with buffers_ :=
            (executeStep exec bs
              (copyInputFromHost bs 0 r.bindings r.buffers_ inputs).1).1 },
          (copyOutputToHost bs 0 r.bindings
            (executeStep exec bs
              (copyInputFromHost bs 0 r.bindings r.buffers_ inputs).1).1).1,
          (copyInputFromHost bs 0 r.bindings r.buffers_ inputs).2
            ++ (executeStep exec bs
                 (copyInputFromHost bs 0 r.bindings r.buffers_ inputs).1).2
            ++ (copyOutputToHost bs 0 r.bindings
                 (executeStep exec bs
                   (copyInputFromHost bs 0 r.bindings r.buffers_ inputs).1).1).2) := by
  unfold invoke
  rw [if_pos hbs]

/-! Claim C1, claim C5 and claim C9. -/

/-- C1 (confirmed): for every invocation with batch size within bounds,
`operator()` performs exactly three phases, in order — the event trace is
the host-to-device copies at the input binding indices (strictly increasing),
then create-context / execute / destroy-context, then the device-to-host
copies at the output binding indices (strictly increasing). The copy-in
phase equals the spec-side description `specCopyIn` (each input binding's
first `batchSize` rows come from the corresponding host pointer, consumed in
order); the resulting buffers are the backend's `exec` applied, with the
given batch size, to the full ordered list of buffer contents after copy-in
(device pointers unchanged); and the host outputs are the spec-side copy-out
`specCopyOut` of the post-execute buffers. -/
theorem uff_invoke_three_phases
    (exec : Nat → List (List (List Nat)) → List (List (List Nat)))
    (r : uff_runner_impl) (inputs : List (List (List Nat))) (bs : Nat)
    (hlen : r.bindings.length = r.buffers_.length)
    (hbs : bs ≤ r.max_batch_size)
    (hexec_len : ∀ cs, (exec bs cs).length = cs.length) :
    ∃ r' outs tr, invoke exec r inputs bs = some (r', outs, tr) ∧
      tr = ((inputIndicesFrom 0 r.bindings).map
              (fun k => Event.copyHostToDevice k bs))
           ++ [Event.createExecutionContext, Event.execute bs,
               Event.destroyContext]
           ++ ((outputIndicesFrom 0 r.bindings).map
              (fun k => Event.copyDeviceToHost k bs)) ∧
      List.Chain' (fun a b => a < b) (inputIndicesFrom 0 r.bindings) ∧
      List.Chain' (fun a b => a < b) (outputIndicesFrom 0 r.bindings) ∧
      (copyInputFromHost bs 0 r.bindings r.buffers_ inputs).1
        = specCopyIn bs r.bindings r.buffers_ inputs ∧
      r'.buffers_.map (fun b => b.rows)
        = exec bs ((specCopyIn bs r.bindings r.buffers_ inputs).map
            (fun b => b.rows)) ∧
      r'.buffers_.map (fun b => b.devPtr) = r.buffers_.map (fun b => b.devPtr) ∧
      outs = specCopyOut bs r.bindings r'.buffers_ := by
  have hcinlen : (copyInputFromHost bs 0 r.bindings r.buffers_ inputs).1.length
      = r.buffers_.length := copyIn_fst_length bs 0 r.bindings r.buffers_ inputs
  have hexlen : (exec bs
      ((copyInputFromHost bs 0 r.bindings r.buffers_ inputs).1.map
        (fun b => b.rows))).length
      = (copyInputFromHost bs 0 r.bindings r.buffers_ inputs).1.length := by
    rw [hexec_len, List.length_map]
  have hexfstlen : (executeStep exec bs
      (copyInputFromHost bs 0 r.bindings r.buffers_ inputs).1).1.length
      = (copyInputFromHost bs 0 r.bindings r.buffers_ inputs).1.length :=
    executeStep_fst_length exec bs _ hexlen
  have hlenex : r.bindings.length
      = (executeStep exec bs
          (copyInputFromHost bs 0 r.bindings r.buffers_ inputs).1).1.length := by
    rw [hexfstlen, hcinlen, hlen]
  refine ⟨_, _, _, invoke_eq exec r inputs bs hbs, ?_, ?_, ?_, ?_, ?_, ?_, ?_⟩
  · rw [copyIn_snd bs r.bindings 0 r.buffers_ inputs hlen,
      copyOut_snd bs r.bindings 0 _ hlenex]
    rfl
  · exact chain'_inputIndicesFrom 0 r.bindings
  · exact chain'_outputIndicesFrom 0 r.bindings
  · exact copyIn_eq_spec bs r.bindings r.buffers_ inputs hlen
  · show (executeStep exec bs
        (copyInputFromHost bs 0 r.bindings r.buffers_ inputs).1).1.map
          (fun b => b.rows) = _
    rw [executeStep_fst_map_rows exec bs _ hexlen,
      copyIn_eq_spec bs r.bindings r.buffers_ inputs hlen]
  · show (executeStep exec bs
        (copyInputFromHost bs 0 r.bindings r.buffers_ inputs).1).1.map
          (fun b => b.devPtr) = _
    rw [executeStep_fst_devPtr exec bs _ hexlen,
      copyIn_fst_devPtr bs 0 r.bindings r.buffers_ inputs]
  · exact copyOut_fst_spec bs r.bindings 0 _ hlenex

/-- C1 witness: on the concrete two-binding sample runner at batch size 1,
the event trace is the copy-in at binding 0, the context lifecycle around
the execute call, and the copy-out at binding 1. -/
theorem uff_invoke_three_phases_witness :
    (invoke (fun _ cs => cs) sampleRunner [[[7, 8], [9, 10]]] 1).map
        (fun s => s.2.2)
      = some [Event.copyHostToDevice 0 1, Event.createExecutionContext,
          Event.execute 1, Event.destroyContext,
          Event.copyDeviceToHost 1 1] := by
  obtain ⟨r', outs, tr, h1, h2, -⟩ :=
    uff_invoke_three_phases (fun _ cs => cs) sampleRunner [[[7, 8], [9, 10]]] 1
      rfl (by decide) (fun cs => rfl)
  rw [h1]
  show some tr = _
  rw [h2]
  rfl

/-- C5 (confirmed): for `1 ≤ batchSize ≤ maximum_batch_size`, provided the
backend only rewrites the first `batchSize` rows of each buffer (its
contract), an invocation leaves rows `[batchSize, maximum_batch_size)` of
every device buffer unchanged, keeps every buffer's device pointer and the
buffer count, and mutates no runner state other than the device buffers
(the maximum batch size and the engine's binding list are untouched). -/
theorem uff_invoke_frame
    (exec : Nat → List (List (List Nat)) → List (List (List Nat)))
    (r : uff_runner_impl) (inputs : List (List (List Nat))) (bs : Nat)
    (hlen : r.bindings.length = r.buffers_.length)
    (hbs0 : 0 < bs) (hbs : bs ≤ r.max_batch_size)
    (hin : countInputs r.bindings ≤ inputs.length)
    (hrows : ∀ h ∈ inputs, bs ≤ h.length)
    (hexec_len : ∀ cs, (exec bs cs).length = cs.length)
    (hexec_frame : ∀ cs j,
      ((exec bs cs).getD j []).drop bs = (cs.getD j []).drop bs) :
    ∃ r' outs tr, invoke exec r inputs bs = some (r', outs, tr) ∧
      r'.max_batch_size = r.max_batch_size ∧
      r'.bindings = r.bindings ∧
      r'.buffers_.length = r.buffers_.length ∧
      r'.buffers_.map (fun b => b.devPtr) = r.buffers_.map (fun b => b.devPtr) ∧
      ∀ j, ((r'.buffers_.getD j dummyBuffer).rows).drop bs
          = ((r.buffers_.getD j dummyBuffer).rows).drop bs := by
  have hexlen : (exec bs
      ((copyInputFromHost bs 0 r.bindings r.buffers_ inputs).1.map
        (fun b => b.rows))).length
      = (copyInputFromHost bs 0 r.bindings r.buffers_ inputs).1.length := by
    rw [hexec_len, List.length_map]
  refine ⟨_, _, _, invoke_eq exec r inputs bs hbs, rfl, rfl, ?_, ?_, ?_⟩
  · show (executeStep exec bs
        (copyInputFromHost bs 0 r.bindings r.buffers_ inputs).1).1.length = _
    rw [executeStep_fst_length exec bs _ hexlen,
      copyIn_fst_length bs 0 r.bindings r.buffers_ inputs]
  · show (executeStep exec bs
        (copyInputFromHost bs 0 r.bindings r.buffers_ inputs).1).1.map
          (fun b => b.devPtr) = _
    rw [executeStep_fst_devPtr exec bs _ hexlen,
      copyIn_fst_devPtr bs 0 r.bindings r.buffers_ inputs]
  · intro j
    show ((executeStep exec bs
        (copyInputFromHost bs 0 r.bindings r.buffers_ inputs).1).1.getD j
          dummyBuffer).rows.drop bs = _
    rw [executeStep_getD_rows exec bs _ hexlen j, hexec_frame, getD_map_rows]
    exact copyIn_drop bs r.bindings 0 r.buffers_ inputs hin hrows j

/-- C5 witness: on the sample runner at batch size 1 with the identity
backend, the second row of buffer 0 is unchanged by the invocation. -/
theorem uff_invoke_frame_witness :
    (invoke (fun _ cs => cs) sampleRunner [[[7, 8], [9, 10]]] 1).map
        (fun s => (s.1.buffers_.getD 0 dummyBuffer).rows.drop 1)
      = some ((sampleRunner.buffers_.getD 0 dummyBuffer).rows.drop 1) := by
  obtain ⟨r', outs, tr, h1, -, -, -, -, hdrop⟩ :=
    uff_invoke_frame (fun _ cs => cs) sampleRunner [[[7, 8], [9, 10]]] 1
      rfl (by decide) (by decide) (by decide) (by decide)
      (fun cs => rfl) (fun cs j => rfl)
  rw [h1]
  exact congrArg some (hdrop 0)

/-- C9 (confirmed): for a binding and any `0 < batchSize ≤
maximum_batch_size`, performing the copy-in step into a buffer provisioned
for `maximum_batch_size` rows and then immediately the copy-out step on that
binding (the execute step replaced by an identity backend stub) returns to
the host exactly the submitted `batchSize` input rows, byte for byte. -/
theorem uff_copy_roundtrip
    (nm : String) (dims : Dims) (dt : DataType) (maxb bs : Nat)
    (buf : cuda_buffer_t) (host : List (List Nat))
    (hbs0 : 0 < bs) (hbsmax : bs ≤ maxb) (hbuf : buf.rows.length = maxb)
    (hhost : bs ≤ host.length) :
    (copyOutputToHost bs 0
        [{ name := nm, dims := dims, dtype := dt, is_input := false }]
        ((executeStep (fun _ cs => cs) bs
          ((copyInputFromHost bs 0
            [{ name := nm, dims := dims, dtype := dt, is_input := true }]
            [buf] [host]).1)).1)).1
      = [host.take bs] ∧ (host.take bs).length = bs := by
  have htake : (host.take bs).length = bs := by
    rw [List.length_take]
    exact Nat.min_eq_left hhost
  refine ⟨?_, htake⟩
  have h1 : (copyInputFromHost bs 0
      [{ name := nm, dims := dims, dtype := dt, is_input := true }]
      [buf] [host]).1 = [copySliceIn bs host buf] := by
    simp [copyInputFromHost]
  rw [h1, executeStep_identity]
  have h3 : (copyOutputToHost bs 0
      [{ name := nm, dims := dims, dtype := dt, is_input := false }]
      [copySliceIn bs host buf]).1
      = [(copySliceIn bs host buf).rows.take bs] := by
    simp [copyOutputToHost]
  rw [h3]
  refine congrArg (fun x => [x]) ?_
  simp only [copySliceIn]
  calc (host.take bs ++ buf.rows.drop bs).take bs
      = (host.take bs ++ buf.rows.drop bs).take (host.take bs).length := by
        rw [htake]
    _ = host.take bs := List.take_left _ _

/-- C9 witness: at batch size 1, copying host row [7, 8] in and back out of
a 2-row buffer through the identity stub returns exactly [7, 8]. -/
theorem uff_copy_roundtrip_witness :
    (copyOutputToHost 1 0
        [{ name := "image", dims := { d := [2] },
           dtype := DataType.kINT8, is_input := false }]
        ((executeStep (fun _ cs => cs) 1
          ((copyInputFromHost 1 0
            [{ name := "image", dims := { d := [2] },
               dtype := DataType.kINT8, is_input := true }]
            [{ devPtr := 0, rows := [[0, 0], [0, 0]] }]
            [[[7, 8], [9, 10]]]).1)).1)).1
      = [[[7, 8]]] :=
  (uff_copy_roundtrip "image" { d := [2] } DataType.kINT8 2 1
      { devPtr := 0, rows := [[0, 0], [0, 0]] } [[7, 8], [9, 10]]
      (by decide) (by decide) rfl (by decide)).1.trans rfl

/-! Claim C7 and claim C8. -/

/-- C7 (confirmed): the device buffers are allocated once at construction
(claim C4's theorem) and `operator()` never reallocates them: across any
sequence of invocations with in-range batch sizes (the backend writing
through the handed pointers, hence preserving the buffer count), the runner
ends with the same number of buffers, the same stable device pointer per
buffer, the same binding list and the same maximum batch size. -/
theorem uff_buffers_stable_across_invocations
    (exec : Nat → List (List (List Nat)) → List (List (List Nat)))
    (r : uff_runner_impl) (calls : List (List (List (List Nat)) × Nat))
    (hcalls : ∀ c ∈ calls, 0 < c.2 ∧ c.2 ≤ r.max_batch_size)
    (hexec_len : ∀ n cs, (exec n cs).length = cs.length) :
    ∃ r', invokeSeq exec r calls = some r' ∧
      r'.max_batch_size = r.max_batch_size ∧
      r'.bindings = r.bindings ∧
      r'.buffers_.length = r.buffers_.length ∧
      r'.buffers_.map (fun b => b.devPtr) = r.buffers_.map (fun b => b.devPtr) := by
  induction calls generalizing r with
  | nil => exact ⟨r, rfl, rfl, rfl, rfl, rfl⟩
  | cons c rest ih =>
    have hc := hcalls c (List.mem_cons_self c rest)
    have hexlen : (exec c.2
        ((copyInputFromHost c.2 0 r.bindings r.buffers_ c.1).1.map
          (fun b => b.rows))).length
        = (copyInputFromHost c.2 0 r.bindings r.buffers_ c.1).1.length := by
      rw [hexec_len, List.length_map]
    obtain ⟨r', h1, h2, h3, h4, h5⟩ := ih
      { r with buffers_ :=
          (executeStep exec c.2
            (copyInputFromHost c.2 0 r.bindings r.buffers_ c.1).1).1 }
      (fun c' hc' => hcalls c' (List.mem_cons_of_mem c hc'))
    refine ⟨r', ?_, h2, h3, ?_, ?_⟩
    · show invokeSeq exec r (c :: rest) = some r'
      have hstep : invokeSeq exec r (c :: rest)
          = invokeSeq exec
              { r with buffers_ :=
                  (executeStep exec c.2
                    (copyInputFromHost c.2 0 r.bindings r.buffers_ c.1).1).1 }
              rest := by
        show (match invoke exec r c.1 c.2 with
          | none => none
          | some s => invokeSeq exec s.1 rest) = _
        rw [invoke_eq exec r c.1 c.2 hc.2]
      rw [hstep, h1]
    · rw [h4]
      show (executeStep exec c.2
          (copyInputFromHost c.2 0 r.bindings r.buffers_ c.1).1).1.length = _
      rw [executeStep_fst_length exec c.2 _ hexlen,
        copyIn_fst_length c.2 0 r.bindings r.buffers_ c.1]
    · rw [h5]
      show (executeStep exec c.2
          (copyInputFromHost c.2 0 r.bindings r.buffers_ c.1).1).1.map
            (fun b => b.devPtr) = _
      rw [executeStep_fst_devPtr exec c.2 _ hexlen,
        copyIn_fst_devPtr c.2 0 r.bindings r.buffers_ c.1]

/-- C7 witness: two consecutive invocations (batch sizes 1 then 2) on the
sample runner succeed and leave the device pointers exactly as allocated. -/
theorem uff_buffers_stable_across_invocations_witness :
    (invokeSeq (fun _ cs => cs) sampleRunner
        [([[[7, 8], [9, 10]]], 1), ([[[1, 2], [3, 4]]], 2)]).map
        (fun r' => r'.buffers_.map (fun b => b.devPtr))
      = some (sampleRunner.buffers_.map (fun b => b.devPtr)) := by
  obtain ⟨r', h1, -, -, -, h5⟩ :=
    uff_buffers_stable_across_invocations (fun _ cs => cs) sampleRunner
      [([[[7, 8], [9, 10]]], 1), ([[[1, 2], [3, 4]]], 2)]
      (by decide) (fun n cs => rfl)
  rw [h1]
  exact congrArg some h5

/-- C8 (confirmed): with a deterministic backend — one whose output-binding
slices are a function of the batch size and the input-binding slices of the
buffer contents it is handed — invoking the same runner twice in a row with
identical host inputs and the same in-range batch size writes identical
contents to the caller's host output buffers on both calls. -/
theorem uff_invoke_deterministic
    (exec : Nat → List (List (List Nat)) → List (List (List Nat)))
    (r : uff_runner_impl) (inputs : List (List (List Nat))) (bs : Nat)
    (hlen : r.bindings.length = r.buffers_.length)
    (hbs : bs ≤ r.max_batch_size)
    (hin : countInputs r.bindings ≤ inputs.length)
    (hrows : ∀ h ∈ inputs, bs ≤ h.length)
    (hexec_len : ∀ cs, (exec bs cs).length = cs.length)
    (hdet : ∀ cs cs', cs.length = r.buffers_.length →
        cs'.length = r.buffers_.length →
        slicesAt bs (inputIndicesFrom 0 r.bindings) cs
          = slicesAt bs (inputIndicesFrom 0 r.bindings) cs' →
        slicesAt bs (outputIndicesFrom 0 r.bindings) (exec bs cs)
          = slicesAt bs (outputIndicesFrom 0 r.bindings) (exec bs cs')) :
    ∃ r1 outs1 tr1 r2 outs2 tr2,
      invoke exec r inputs bs = some (r1, outs1, tr1) ∧
      invoke exec r1 inputs bs = some (r2, outs2, tr2) ∧
      outs1 = outs2 := by
  have hcin1len : (copyInputFromHost bs 0 r.bindings r.buffers_ inputs).1.length
      = r.buffers_.length := copyIn_fst_length bs 0 r.bindings r.buffers_ inputs
  have hexlen1 : (exec bs
      ((copyInputFromHost bs 0 r.bindings r.buffers_ inputs).1.map
        (fun b => b.rows))).length
      = (copyInputFromHost bs 0 r.bindings r.buffers_ inputs).1.length := by
    rw [hexec_len, List.length_map]
  have hex1len : (executeStep exec bs
      (copyInputFromHost bs 0 r.bindings r.buffers_ inputs).1).1.length
      = r.buffers_.length := by
    rw [executeStep_fst_length exec bs _ hexlen1, hcin1len]
  have hcin2len : (copyInputFromHost bs 0 r.bindings
      (executeStep exec bs
        (copyInputFromHost bs 0 r.bindings r.buffers_ inputs).1).1 inputs).1.length
      = r.buffers_.length := by
    rw [copyIn_fst_length, hex1len]
  have hexlen2 : (exec bs
      ((copyInputFromHost bs 0 r.bindings
        (executeStep exec bs
          (copyInputFromHost bs 0 r.bindings r.buffers_ inputs).1).1 inputs).1.map
        (fun b => b.rows))).length
      = (copyInputFromHost bs 0 r.bindings
          (executeStep exec bs
            (copyInputFromHost bs 0 r.bindings r.buffers_ inputs).1).1 inputs).1.length := by
    rw [hexec_len, List.length_map]
  have hlen1 : r.bindings.length
      = (executeStep exec bs
          (copyInputFromHost bs 0 r.bindings r.buffers_ inputs).1).1.length := by
    rw [hex1len, hlen]
  have hlen2 : r.bindings.length
      = (executeStep exec bs
          (copyInputFromHost bs 0 r.bindings
            (executeStep exec bs
              (copyInputFromHost bs 0 r.bindings r.buffers_ inputs).1).1 inputs).1).1.length := by
    rw [executeStep_fst_length exec bs _ hexlen2, hcin2len, hlen]
  refine ⟨_, _, _, _, _, _, invoke_eq exec r inputs bs hbs,
    invoke_eq exec
      { r with buffers_ :=
          (executeStep exec bs
            (copyInputFromHost bs 0 r.bindings r.buffers_ inputs).1).1 }
      inputs bs hbs, ?_⟩
  rw [copyOut_fst_spec bs r.bindings 0 _ hlen1,
    copyOut_fst_spec bs r.bindings 0 _ hlen2,
    specCopyOut_slicesAt, specCopyOut_slicesAt,
    executeStep_fst_map_rows exec bs _ hexlen1,
    executeStep_fst_map_rows exec bs _ hexlen2]
  apply hdet
  · rw [List.length_map, hcin1len]
  · rw [List.length_map, hcin2len]
  · rw [copyIn_inputSlices bs r.bindings 0 r.buffers_ inputs hlen hin hrows,
      copyIn_inputSlices bs r.bindings 0 _ inputs (by rw [hex1len, hlen]) hin hrows]

/-- C8 witness: on the single-input-binding sample runner with the identity
backend (vacuously deterministic: there are no output bindings), two
back-to-back invocations with the same host input produce the same host
outputs. -/
theorem uff_invoke_deterministic_witness :
    (invoke (fun _ cs => cs) sampleInputRunner [[[7, 8], [9, 10]]] 1).map
        (fun s => s.2.1)
      = ((invoke (fun _ cs => cs) sampleInputRunner [[[7, 8], [9, 10]]] 1).bind
          (fun s => invoke (fun _ cs => cs) s.1 [[[7, 8], [9, 10]]] 1)).map
        (fun s => s.2.1) := by
  obtain ⟨r1, o1, t1, r2, o2, t2, h1, h2, heq⟩ :=
    uff_invoke_deterministic (fun _ cs => cs) sampleInputRunner
      [[[7, 8], [9, 10]]] 1 rfl (by decide) (by decide) (by decide)
      (fun cs => rfl) (fun cs cs' _ _ _ => rfl)
  rw [h1]
  show some o1 = (invoke (fun _ cs => cs) r1 [[[7, 8], [9, 10]]] 1).map
    (fun s => s.2.1)
  rw [h2]
  exact congrArg some heq

end UffEngine
